import Mathlib

/-!
CsDebugScript / NativeDumpTest : verification development.

Shallow embedding of

* `Source/CsDebugScript.WinDbg/CsDebugScript.h`  (the `CAutoComPtr<T>` wrapper), and
* `Tests/DumpApps/NativeDumpTest/NativeDumpTest.cpp` (the dump fixture program).

A raw `T*` is a machine address, `nullptr` being address `0`.  The only effect a
`CAutoComPtr` has on the outside world is the call `pointer->Release()`; every
method of the embedding therefore returns, next to its C++ result and the new
object state, the list of events it performed, in program order.
-/

namespace CsDebugScript

/-! ## Data model of `CAutoComPtr<T>` -/

/-- A raw `T*`: the address of a reference-counted object. -/
abbrev Handle := Nat

/-- The null handle. -/
def nullptr : Handle := 0

/-- The observable steps a wrapper method performs. -/
inductive Event where
  /-- The call `h->Release()`. -/
  | release (h : Handle)
  /-- A write of `p` into the data member `pointer`. -/
  | store (p : Handle)
  deriving DecidableEq, Repr

/-- The class `CAutoComPtr<T>`: its single data member is `T* pointer`. -/
structure CAutoComPtr where
  pointer : Handle
  deriving DecidableEq, Repr

/-- What a method call yields: the C++ return value, the object afterwards and the
events performed by the call, oldest first. -/
structure Outcome (α : Type) where
  value : α
  self : CAutoComPtr
  events : List Event

/-- The handles on which `Release` is called in a run of events, in call order. -/
def releasedHandles : List Event → List Handle
  | [] => []
  | Event.release h :: es => h :: releasedHandles es
  | Event.store _ :: es => releasedHandles es

/-- The values written into `pointer` in a run of events, in order. -/
def storedHandles : List Event → List Handle
  | [] => []
  | Event.release _ :: es => storedHandles es
  | Event.store p :: es => p :: storedHandles es

namespace CAutoComPtr

/-- The constructor `CAutoComPtr() : pointer(nullptr) {}`. -/
def ctor : Outcome Unit :=
  { value := (), self := { pointer := nullptr }, events := [Event.store nullptr] }

/-- The constructor `CAutoComPtr(T* pointer) : pointer(pointer) {}`. -/
def ctorFrom (pointer : Handle) : Outcome Unit :=
  { value := (), self := { pointer := pointer }, events := [Event.store pointer] }

/-- The destructor `~CAutoComPtr() { if (pointer) pointer->Release(); }`: the events
of the destruction (the object no longer exists afterwards). -/
def dtor (self : CAutoComPtr) : List Event :=
  if self.pointer ≠ nullptr then [Event.release self.pointer] else []

/-- The member `CAutoComPtr& operator=(T* p)`:
`if (pointer) pointer->Release(); pointer = p; return *this;`. -/
def opAssign (self : CAutoComPtr) (p : Handle) : Outcome Unit :=
  let first : List Event :=
    if self.pointer ≠ nullptr then [Event.release self.pointer] else []
  { value := (), self := { self with pointer := p }, events := first ++ [Event.store p] }

/-- The member `T* operator->() const { return pointer; }`. -/
def opArrow (self : CAutoComPtr) : Outcome Handle :=
  { value := self.pointer, self := self, events := [] }

/-- The member `operator T*() const { return pointer; }`. -/
def opConvert (self : CAutoComPtr) : Outcome Handle :=
  { value := self.pointer, self := self, events := [] }

/-- The member `bool operator !=(T* p) const { return pointer != p; }`. -/
def opNe (self : CAutoComPtr) (p : Handle) : Outcome Bool :=
  { value := self.pointer != p, self := self, events := [] }

/-- The member `T* PvReturn()`:
`T* result = pointer; pointer = nullptr; return result;`. -/
def PvReturn (self : CAutoComPtr) : Outcome Handle :=
  let result := self.pointer
  { value := result, self := { self with pointer := nullptr },
    events := [Event.store nullptr] }

end CAutoComPtr

/-- A `T**` into a wrapper.  `CAutoComPtr` has the one data member `pointer`, so the
address handed out by `operator&` designates that member. -/
inductive FieldAddress where
  | pointerMember
  deriving DecidableEq, Repr

/-- The member `T** operator&() { return &pointer; }`. -/
def CAutoComPtr.opAddressOf (self : CAutoComPtr) : Outcome FieldAddress :=
  { value := FieldAddress.pointerMember, self := self, events := [] }

/-- The caller-side statement `*a = q` for an address `a` obtained from `operator&`:
a plain write into the member, outside every method of the class. -/
def FieldAddress.write (a : FieldAddress) (q : Handle) (w : CAutoComPtr) :
    CAutoComPtr × List Event :=
  match a with
  | FieldAddress.pointerMember => ({ w with pointer := q }, [Event.store q])

/-- The caller-side expression `*a` for an address `a` obtained from `operator&`. -/
def FieldAddress.read (a : FieldAddress) (w : CAutoComPtr) : Handle :=
  match a with
  | FieldAddress.pointerMember => w.pointer

/-! ## Lifetimes of one wrapper -/

/-- How a wrapper comes to life: `none` is `CAutoComPtr()`, `some p` is
`CAutoComPtr(p)`. -/
def construct : Option Handle → Outcome Unit
  | none => CAutoComPtr.ctor
  | some p => CAutoComPtr.ctorFrom p

/-- The statements `w = p₁; w = p₂; ...` in turn: the wrapper afterwards and the
events of all the assignments. -/
def assignAll (w : CAutoComPtr) : List Handle → CAutoComPtr × List Event
  | [] => (w, [])
  | p :: ps =>
    let r := w.opAssign p
    let rest := assignAll r.self ps
    (rest.1, r.events ++ rest.2)

/-- A wrapper lifetime: one construction, raw-handle assignments, destruction. -/
structure Lifetime where
  initial : Option Handle
  assigned : List Handle

/-- The raw handles given to the wrapper during a lifetime, by construction or by
assignment, in order. -/
def Lifetime.handed (l : Lifetime) : List Handle :=
  l.initial.toList ++ l.assigned

/-- All events of a lifetime, from construction to the end of the destructor. -/
def Lifetime.run (l : Lifetime) : List Event :=
  let c := construct l.initial
  let a := assignAll c.self l.assigned
  c.events ++ a.2 ++ a.1.dtor

/-- The members that take no handle to own: `operator->`, `operator T*`,
`operator!=` and `PvReturn`. -/
inductive Access where
  | arrow
  | convert
  | ne (p : Handle)
  | pvReturn
  deriving DecidableEq, Repr

/-- One call of such a member: the wrapper afterwards and the events of the call. -/
def Access.apply (w : CAutoComPtr) : Access → CAutoComPtr × List Event
  | Access.arrow => (w.opArrow.self, w.opArrow.events)
  | Access.convert => (w.opConvert.self, w.opConvert.events)
  | Access.ne p => ((w.opNe p).self, (w.opNe p).events)
  | Access.pvReturn => (w.PvReturn.self, w.PvReturn.events)

/-- A sequence of such calls on one wrapper. -/
def accessAll (w : CAutoComPtr) : List Access → CAutoComPtr × List Event
  | [] => (w, [])
  | a :: as =>
    let r := Access.apply w a
    let rest := accessAll r.1 as
    (rest.1, r.2 ++ rest.2)

/-! ## Several wrappers side by side -/

/-- One wrapper object of a program: whether its lifetime is running, its state, and
the events its own members have performed so far. -/
structure Instance where
  alive : Bool
  obj : CAutoComPtr
  history : List Event

/-- The wrappers of a program, numbered in order of construction. -/
structure World where
  count : Nat
  inst : Nat → Instance

/-- The program start: no wrapper has been constructed. -/
def World.init : World :=
  { count := 0, inst := fun _ => { alive := false, obj := { pointer := nullptr }, history := [] } }

/-- What client code can do with wrappers through the public members of the class. -/
inductive Call where
  | construct
  | constructFrom (p : Handle)
  | assign (i : Nat) (p : Handle)
  | pvReturn (i : Nat)
  | destroy (i : Nat)
  deriving DecidableEq, Repr

/-- The effect of one client statement on the wrappers. -/
def World.step (w : World) : Call → World
  | Call.construct =>
    let r := CAutoComPtr.ctor
    let fresh : Instance := { alive := true, obj := r.self, history := r.events }
    { count := w.count + 1, inst := Function.update w.inst w.count fresh }
  | Call.constructFrom p =>
    let r := CAutoComPtr.ctorFrom p
    let fresh : Instance := { alive := true, obj := r.self, history := r.events }
    { count := w.count + 1, inst := Function.update w.inst w.count fresh }
  | Call.assign i p =>
    let r := (w.inst i).obj.opAssign p
    let next : Instance :=
      { alive := (w.inst i).alive, obj := r.self,
        history := (w.inst i).history ++ r.events }
    { count := w.count, inst := Function.update w.inst i next }
  | Call.pvReturn i =>
    let r := (w.inst i).obj.PvReturn
    let next : Instance :=
      { alive := (w.inst i).alive, obj := r.self,
        history := (w.inst i).history ++ r.events }
    { count := w.count, inst := Function.update w.inst i next }
  | Call.destroy i =>
    let next : Instance :=
      { alive := false, obj := (w.inst i).obj,
        history := (w.inst i).history ++ (w.inst i).obj.dtor }
    { count := w.count, inst := Function.update w.inst i next }

/-- A sequence of client statements. -/
def World.run (w : World) : List Call → World
  | [] => w
  | c :: cs => World.run (w.step c) cs

/-- A member can only be called on, and a destructor only run for, a wrapper whose
lifetime is running. -/
def Call.wellFormed (w : World) : Call → Prop
  | Call.construct => True
  | Call.constructFrom _ => True
  | Call.assign i _ => i < w.count ∧ (w.inst i).alive = true
  | Call.pvReturn i => i < w.count ∧ (w.inst i).alive = true
  | Call.destroy i => i < w.count ∧ (w.inst i).alive = true

/-- Every statement of the sequence is about a wrapper whose lifetime is running. -/
def WellFormed : World → List Call → Prop
  | _, [] => True
  | w, c :: cs => c.wellFormed w ∧ WellFormed (w.step c) cs

/-- Some live wrapper holds `h`. -/
def World.holds (w : World) (h : Handle) : Prop :=
  ∃ i, i < w.count ∧ (w.inst i).alive = true ∧ (w.inst i).obj.pointer = h

/-- Some wrapper has called `Release` on `h`. -/
def World.released (w : World) (h : Handle) : Prop :=
  ∃ i, i < w.count ∧ h ∈ releasedHandles (w.inst i).history

/-- The obligation of the caller in an ownership transfer: a handle given to a
wrapper is null, or is a reference no live wrapper holds and no wrapper has released. -/
def Call.ownsArgument (w : World) : Call → Prop
  | Call.constructFrom p => p = nullptr ∨ (¬ w.holds p ∧ ¬ w.released p)
  | Call.assign _ p => p = nullptr ∨ (¬ w.holds p ∧ ¬ w.released p)
  | _ => True

/-- A well-formed sequence in which the caller owns every handle given to a wrapper. -/
def Disciplined : World → List Call → Prop
  | _, [] => True
  | w, c :: cs => c.wellFormed w ∧ c.ownsArgument w ∧ Disciplined (w.step c) cs

/-- The client code `CAutoComPtr<T> a(h); CAutoComPtr<T> b(h);` for the handle `1`:
the same raw handle is given to two wrappers. -/
def twoFromOne : List Call :=
  [Call.constructFrom 1, Call.constructFrom 1]

/-- The same client code followed by the end of both lifetimes. -/
def twoFromOneDestroyed : List Call :=
  [Call.constructFrom 1, Call.constructFrom 1, Call.destroy 0, Call.destroy 1]

/-- Client code that moves handle `1` from wrapper 0 to wrapper 1 with `PvReturn`:
`a(h1); b; b = h2; t = a.PvReturn(); b = t;` and the end of both lifetimes. -/
def transferProgram : List Call :=
  [Call.constructFrom 1, Call.construct, Call.assign 1 2, Call.pvReturn 0,
   Call.assign 1 1, Call.destroy 0, Call.destroy 1]

/-- No non-null handle is held by two live wrappers at once. -/
def NoSharedHandle (w : World) : Prop :=
  ∀ i, i < w.count → ∀ j, j < w.count → i ≠ j →
    (w.inst i).alive = true → (w.inst j).alive = true →
    (w.inst i).obj.pointer ≠ nullptr → (w.inst i).obj.pointer ≠ (w.inst j).obj.pointer

/-- No handle is released by two different wrappers. -/
def NoDualRelease (w : World) : Prop :=
  ∀ i, i < w.count → ∀ j, j < w.count → i ≠ j →
    ∀ h, h ∈ releasedHandles (w.inst i).history → h ∉ releasedHandles (w.inst j).history

/-- What holds of the wrappers of a program whose caller gives away only handles
the caller owns: live wrappers hold different handles, a handle that
was released is held by no live wrapper, no handle was released by two wrappers, and
null was never released. -/
structure Inv (w : World) : Prop where
  unique : NoSharedHandle w
  gone : ∀ i, i < w.count → ∀ j, j < w.count → (w.inst j).alive = true →
    ∀ h, h ∈ releasedHandles (w.inst i).history → (w.inst j).obj.pointer ≠ h
  once : NoDualRelease w
  nonnull : ∀ i, i < w.count → nullptr ∉ releasedHandles (w.inst i).history

instance World.decidableHolds (w : World) (h : Handle) : Decidable (w.holds h) := by
  unfold World.holds
  infer_instance

instance World.decidableReleased (w : World) (h : Handle) : Decidable (w.released h) := by
  unfold World.released
  infer_instance

instance Call.decidableWellFormed (w : World) (c : Call) : Decidable (c.wellFormed w) := by
  cases c <;> unfold Call.wellFormed <;> infer_instance

instance Call.decidableOwnsArgument (w : World) (c : Call) :
    Decidable (c.ownsArgument w) := by
  cases c <;> unfold Call.ownsArgument <;> infer_instance

/-- Whether a sequence is well formed can be computed. -/
def decideWellFormed : (w : World) → (cs : List Call) → Decidable (WellFormed w cs)
  | _, [] => isTrue trivial
  | w, c :: cs =>
    match Call.decidableWellFormed w c, decideWellFormed (w.step c) cs with
    | isTrue a, isTrue b => isTrue ⟨a, b⟩
    | isFalse a, _ => isFalse (fun h => a h.1)
    | _, isFalse b => isFalse (fun h => b h.2)

instance (w : World) (cs : List Call) : Decidable (WellFormed w cs) :=
  decideWellFormed w cs

/-- Whether a sequence is disciplined can be computed. -/
def decideDisciplined : (w : World) → (cs : List Call) → Decidable (Disciplined w cs)
  | _, [] => isTrue trivial
  | w, c :: cs =>
    match Call.decidableWellFormed w c, Call.decidableOwnsArgument w c,
      decideDisciplined (w.step c) cs with
    | isTrue a, isTrue b, isTrue d => isTrue ⟨a, b, d⟩
    | isFalse a, _, _ => isFalse (fun h => a h.1)
    | _, isFalse b, _ => isFalse (fun h => b h.2.1)
    | _, _, isFalse d => isFalse (fun h => d h.2.2)

instance (w : World) (cs : List Call) : Decidable (Disciplined w cs) :=
  decideDisciplined w cs

end CsDebugScript

namespace NativeDumpTest

/-! ## Data model of the fixture program -/

/-- The enumeration `MyEnum`. -/
inductive MyEnum where
  | enumEntry0
  | enumEntry1
  | enumEntry2
  | enumEntry3
  | enumEntry4
  | enumEntry5
  | enumEntry6
  deriving DecidableEq, Repr

/-- The nested enumeration `MyTestClass::MyEnumInner`. -/
inductive MyEnumInner where
  | simple0
  | simple1
  | simple2
  | simple3
  | simple4
  deriving DecidableEq, Repr

/-- The class `MyTestClass`.  A `std::list`, a `std::vector` and a C array are the
sequences of their elements; a `std::map` is the sequence of its entries in key
order, a `std::unordered_map` the collection of its entries. -/
structure MyTestClass where
  string1 : String
  strings : List String
  stringArray : List String
  ansiStrings : List String
  stringMap : List (String × String)
  stringUMap : List (String × String)
  enumeration : MyEnum
  innerEnumeration : MyEnumInner
  deriving DecidableEq, Repr

/-- The definition `int MyTestClass::staticVariable = 1212121212;`. -/
def MyTestClass.staticVariable : Int := 1212121212

/-- The object `globalVariable` as it is when `main` starts: static storage is
zero-initialised and then every string and container member is default-constructed
(empty). -/
def globalVariable : MyTestClass :=
  { string1 := "",
    strings := [],
    stringArray := List.replicate 100 "",
    ansiStrings := [],
    stringMap := [],
    stringUMap := [],
    enumeration := MyEnum.enumEntry0,
    innerEnumeration := MyEnumInner.simple0 }

/-- The library call `push_back` of `std::list` and `std::vector`. -/
def push_back (xs : List String) (x : String) : List String :=
  xs ++ [x]

/-- The library call `std::map::insert(pair)`: an entry whose key is already present
is not inserted, a new entry goes to its place in key order. -/
def mapInsert (kv : String × String) : List (String × String) → List (String × String)
  | [] => [kv]
  | e :: es =>
    if kv.1 = e.1 then e :: es
    else if kv.1 < e.1 then kv :: e :: es
    else e :: mapInsert kv es

/-- The library call `std::unordered_map::insert(pair)`: an entry whose key is
already present is not inserted. -/
def umapInsert (kv : String × String) (m : List (String × String)) :
    List (String × String) :=
  if m.any (fun e => e.1 == kv.1) then m else m ++ [kv]

/-- The size of an `int` in bytes. -/
def sizeofInt : Nat := 4

/-- The loop `for (int i = 0; i < sizeof(testArray) / sizeof(testArray[0]); i++)
testArray[i] = 0x12121212;` over `int testArray[10000]`, the array being given by
its cells and starting with whatever the stack held. -/
def fillTestArray (testArray : Nat → Int) : Nat → Int :=
  (List.range ((10000 * sizeofInt) / sizeofInt)).foldl
    (fun a i => Function.update a i 0x12121212) testArray

/-! ### `std::shared_ptr` and `std::weak_ptr` -/

/-- The control block of a shared object: the object while it exists, the number of
`shared_ptr` owners and the number of `weak_ptr` observers. -/
structure ControlBlock where
  object : Option Int
  strong : Nat
  weak : Nat
  deriving DecidableEq, Repr

/-- The control blocks allocated so far. -/
structure Heap where
  next : Nat
  block : Nat → ControlBlock

/-- An instance of `std::shared_ptr<int>`: empty, or attached to a control block. -/
structure shared_ptr where
  block : Option Nat
  deriving DecidableEq, Repr

/-- An instance of `std::weak_ptr<int>`: empty, or attached to a control block. -/
structure weak_ptr where
  block : Option Nat
  deriving DecidableEq, Repr

/-- The library call `make_shared<int>(v)`, and likewise `shared_ptr<int>(new int(v))`:
a new object with one owner. -/
def make_shared (hp : Heap) (v : Int) : shared_ptr × Heap :=
  ({ block := some hp.next },
   { next := hp.next + 1,
     block := Function.update hp.block hp.next { object := some v, strong := 1, weak := 0 } })

/-- The conversion `weak_ptr<int> w = s;`: one more observer of the object of `s`. -/
def weak_ptr.ofShared (hp : Heap) (s : shared_ptr) : weak_ptr × Heap :=
  match s.block with
  | none => ({ block := none }, hp)
  | some b =>
    let cb := hp.block b
    ({ block := some b },
     { next := hp.next, block := Function.update hp.block b { cb with weak := cb.weak + 1 } })

/-- The assignment `s = nullptr;`: `s` gives up its share, the object is destroyed
when that was the last one, and `s` is empty afterwards. -/
def shared_ptr.assignNull (hp : Heap) (s : shared_ptr) : shared_ptr × Heap :=
  match s.block with
  | none => ({ block := none }, hp)
  | some b =>
    let cb := hp.block b
    let strong := cb.strong - 1
    let object := if strong = 0 then none else cb.object
    ({ block := none },
     { next := hp.next,
       block := Function.update hp.block b { cb with strong := strong, object := object } })

/-- The member `shared_ptr::use_count()`. -/
def shared_ptr.use_count (hp : Heap) (s : shared_ptr) : Nat :=
  match s.block with
  | none => 0
  | some b => (hp.block b).strong

/-- The member `shared_ptr::get()`, read through: the owned `int`, if any. -/
def shared_ptr.get (hp : Heap) (s : shared_ptr) : Option Int :=
  match s.block with
  | none => none
  | some b => (hp.block b).object

/-- The member `weak_ptr::use_count()`. -/
def weak_ptr.use_count (hp : Heap) (w : weak_ptr) : Nat :=
  match w.block with
  | none => 0
  | some b => (hp.block b).strong

/-- The member `weak_ptr::expired()`. -/
def weak_ptr.expired (hp : Heap) (w : weak_ptr) : Bool :=
  weak_ptr.use_count hp w == 0

/-! ### The fixtures and `main` -/

/-- The program state when `DefaultTestCase` executes `*a = 4` with `a == nullptr`. -/
structure FaultState where
  globalVariable : MyTestClass
  e : MyEnum
  testArray : Nat → Int
  heap : Heap
  sptr1 : shared_ptr
  wptr1 : weak_ptr
  esptr1 : shared_ptr
  ewptr1 : weak_ptr
  esptr2 : shared_ptr
  ewptr2 : weak_ptr

/-- The function `DefaultTestCase`, up to the faulting write `*a = 4`.  `g` is the
object `globalVariable` on entry (`p` points to it), `stack` the contents of the
cells of `testArray` on entry, `hp` the control blocks on entry and `fresh` the
indeterminate value of the `int` made by `new int`. -/
def DefaultTestCase (g : MyTestClass) (stack : Nat → Int) (hp : Heap) (fresh : Int) :
    FaultState :=
  let e := MyEnum.enumEntry3
  let g := { g with string1 := "qwerty" }
  let g := { g with strings := push_back g.strings "Foo" }
  let g := { g with strings := push_back g.strings "Bar" }
  let g := { g with ansiStrings := push_back g.ansiStrings "AnsiFoo" }
  let g := { g with ansiStrings := push_back g.ansiStrings "AnsiBar" }
  let g := { g with stringMap := mapInsert ("foo", "ansiFoo") g.stringMap }
  let g := { g with stringMap := mapInsert ("bar", "ansiBar") g.stringMap }
  let g := { g with stringUMap := umapInsert ("foo", "ansiFoo") g.stringUMap }
  let g := { g with stringUMap := umapInsert ("bar", "ansiBar") g.stringUMap }
  let testArray := fillTestArray stack
  let (sptr1, hp) := make_shared hp 5
  let (wptr1, hp) := weak_ptr.ofShared hp sptr1
  let (esptr1, hp) := make_shared hp 42
  let (ewptr1, hp) := weak_ptr.ofShared hp esptr1
  let (esptr2, hp) := make_shared hp fresh
  let (ewptr2, hp) := weak_ptr.ofShared hp esptr2
  let (esptr1, hp) := shared_ptr.assignNull hp esptr1
  let (esptr2, hp) := shared_ptr.assignNull hp esptr2
  { globalVariable := g, e := e, testArray := testArray, heap := hp,
    sptr1 := sptr1, wptr1 := wptr1, esptr1 := esptr1, ewptr1 := ewptr1,
    esptr2 := esptr2, ewptr2 := ewptr2 }

/-- The fixture `main` runs; neither returns (`DefaultTestCase` faults,
`InfiniteRecursionTestCase(arg)` calls itself with `arg + 1` for ever). -/
inductive Fixture where
  | DefaultTestCase
  | InfiniteRecursionTestCase (arg : Int)
  deriving DecidableEq, Repr

/-- The function `main`: which fixture it calls.  `atoi` is the C library function,
`argv i` is the string `argv[i]`. -/
def main (atoi : String → Int) (argc : Int) (argv : Nat → String) : Fixture :=
  let testCaseToRun : Int := 0
  let testCaseToRun : Int := if argc = 2 then atoi (argv 1) else testCaseToRun
  if testCaseToRun = 0 then Fixture.DefaultTestCase
  else if testCaseToRun = 1 then Fixture.InfiniteRecursionTestCase 0
  else Fixture.DefaultTestCase

end NativeDumpTest

/-! Theorems. -/

namespace CsDebugScript

/-! ## Helper lemmas on event runs -/

theorem releasedHandles_append (xs ys : List Event) :
    releasedHandles (xs ++ ys) = releasedHandles xs ++ releasedHandles ys := by
  induction xs with
  | nil => rfl
  | cons x xs ih =>
    cases x with
    | release h => simp [releasedHandles, ih]
    | store p => simp [releasedHandles, ih]

theorem releasedHandles_dtor (w : CAutoComPtr) :
    releasedHandles w.dtor = if w.pointer ≠ nullptr then [w.pointer] else [] := by
  unfold CAutoComPtr.dtor
  split <;> rfl

theorem releasedHandles_opAssign (w : CAutoComPtr) (p : Handle) :
    releasedHandles (w.opAssign p).events
      = if w.pointer ≠ nullptr then [w.pointer] else [] := by
  unfold CAutoComPtr.opAssign
  by_cases h : w.pointer = nullptr <;> simp [h, releasedHandles]

/-! ## One call -/

/-- C1: for every wrapper state and every raw handle `p`, `operator=(p)` performs, in
this order, one `Release` on the held handle if that handle is non-null (none if the
wrapper is empty) and then the store of `p`; it calls `Release` on nothing else and
leaves the wrapper holding exactly `p`. -/
theorem opAssign_releases_previous_then_stores (w : CAutoComPtr) (p : Handle) :
    (w.opAssign p).self.pointer = p ∧
    (w.opAssign p).events
      = (if w.pointer ≠ nullptr then [Event.release w.pointer] else []) ++ [Event.store p] ∧
    (∀ h, (releasedHandles (w.opAssign p).events).count h
      = if w.pointer ≠ nullptr ∧ h = w.pointer then 1 else 0) ∧
    storedHandles (w.opAssign p).events = [p] ∧
    (∀ (i j : Nat) (h q : Handle), (w.opAssign p).events[i]? = some (Event.release h) →
      (w.opAssign p).events[j]? = some (Event.store q) → i < j) := by
  refine ⟨rfl, rfl, ?_, ?_, ?_⟩
  · intro h
    rw [releasedHandles_opAssign]
    by_cases hw : w.pointer = nullptr
    · simp [hw]
    · by_cases hh : h = w.pointer
      · simp [hw, hh]
      · have hne : ¬ (w.pointer = h) := fun e => hh e.symm
        simp [hw, hh, List.count_cons, hne]
  · unfold CAutoComPtr.opAssign
    by_cases hw : w.pointer = nullptr <;> simp [hw, storedHandles]
  · intro i j h q hi hj
    unfold CAutoComPtr.opAssign at hi hj
    by_cases hw : w.pointer = nullptr
    · simp only [hw, ne_eq, not_true_eq_false, if_false, List.nil_append] at hi
      cases i with
      | zero => simp at hi
      | succ i => simp at hi
    · simp only [hw, ne_eq, not_false_eq_true, if_true, List.singleton_append] at hi hj
      cases i with
      | zero =>
        cases j with
        | zero => simp at hj
        | succ j => exact Nat.succ_pos j
      | succ i =>
        cases i with
        | zero => simp at hi
        | succ i => simp at hi

/-- C3: for every wrapper state, `PvReturn()` returns the handle held before the call
(null for an empty wrapper), calls `Release` on nothing and leaves the wrapper empty;
a destruction right afterwards performs no event, so calls `Release` on nothing. -/
theorem PvReturn_returns_held_and_empties (w : CAutoComPtr) :
    w.PvReturn.value = w.pointer ∧
    releasedHandles w.PvReturn.events = [] ∧
    w.PvReturn.self.pointer = nullptr ∧
    w.PvReturn.self.dtor = [] := by
  refine ⟨rfl, rfl, rfl, ?_⟩
  simp [CAutoComPtr.PvReturn, CAutoComPtr.dtor]

/-- C6: for every wrapper state and every raw handle `p`, `operator->()` and the
conversion to `T*` return exactly the held handle, `operator!=(p)` returns true if and
only if the held handle differs from `p`, and each of the three leaves the wrapper
as it was and performs no event (so no `Release`). -/
theorem read_accessors_are_read_only (w : CAutoComPtr) (p : Handle) :
    (w.opArrow.value = w.pointer ∧ w.opArrow.self = w ∧ w.opArrow.events = []) ∧
    (w.opConvert.value = w.pointer ∧ w.opConvert.self = w ∧ w.opConvert.events = []) ∧
    (((w.opNe p).value = true ↔ w.pointer ≠ p) ∧ (w.opNe p).self = w ∧
      (w.opNe p).events = []) := by
  refine ⟨⟨rfl, rfl, rfl⟩, ⟨rfl, rfl, rfl⟩, ⟨?_, rfl, rfl⟩⟩
  simp [CAutoComPtr.opNe]

/-- C7, the claim at a concrete input: a wrapper holds the non-null handle `1`, the
same handle `1` is stored through the address given by `operator&`, and the
destructor then calls `Release` on `1`, the handle held at the start, so "never `h`"
fails. -/
theorem addressOf_store_of_held_handle_is_released :
    ({ pointer := 1 } : CAutoComPtr).pointer ≠ nullptr ∧
    ¬ (({ pointer := 1 } : CAutoComPtr).pointer ∉
        releasedHandles
          ((({ pointer := 1 } : CAutoComPtr).opAddressOf.value.write 1
            ({ pointer := 1 } : CAutoComPtr).opAddressOf.self).1.dtor)) := by
  decide

/-- C7 (amended): for a wrapper holding a handle `h` (null or not), `operator&` yields the
address of the member `pointer` and changes nothing; storing a handle `q` through it
leaves the wrapper holding `q` with no `Release` call at all; a following destruction
calls `Release` once on `q` if `q` is non-null and on nothing else, hence never on `h`
when `q` differs from `h`. -/
theorem addressOf_exposes_storage_unchecked (w : CAutoComPtr) (q : Handle) :
    (w.opAddressOf.self = w ∧ w.opAddressOf.events = [] ∧
      w.opAddressOf.value.read w = w.pointer) ∧
    (w.opAddressOf.value.write q w.opAddressOf.self).1.pointer = q ∧
    releasedHandles (w.opAddressOf.value.write q w.opAddressOf.self).2 = [] ∧
    releasedHandles (w.opAddressOf.value.write q w.opAddressOf.self).1.dtor
      = (if q ≠ nullptr then [q] else []) ∧
    (q ≠ w.pointer →
      w.pointer ∉ releasedHandles (w.opAddressOf.value.write q w.opAddressOf.self).1.dtor) := by
  refine ⟨⟨rfl, rfl, rfl⟩, rfl, rfl, ?_, ?_⟩
  · rw [releasedHandles_dtor]; rfl
  · intro hq
    rw [releasedHandles_dtor]
    have : (w.opAddressOf.value.write q w.opAddressOf.self).1.pointer = q := rfl
    rw [this]
    by_cases h0 : q = nullptr
    · simp [h0]
    · simp [h0]
      exact fun e => hq e.symm

/-- C7 (amended) at a wrapper holding `1` into which `2` is stored: the destructor
calls `Release` on `2` only, never on `1`. -/
theorem addressOf_exposes_storage_unchecked_witness :
    (2 : Handle) ≠ ({ pointer := 1 } : CAutoComPtr).pointer ∧
    releasedHandles
      (({ pointer := 1 } : CAutoComPtr).opAddressOf.value.write 2
        ({ pointer := 1 } : CAutoComPtr).opAddressOf.self).1.dtor = [2] ∧
    ({ pointer := 1 } : CAutoComPtr).pointer ∉
      releasedHandles
        (({ pointer := 1 } : CAutoComPtr).opAddressOf.value.write 2
          ({ pointer := 1 } : CAutoComPtr).opAddressOf.self).1.dtor :=
  ⟨by decide, by decide,
   (addressOf_exposes_storage_unchecked { pointer := 1 } 2).2.2.2.2 (by decide)⟩

/-! ## One wrapper from construction to destruction -/

theorem releasedHandles_assignAll_dtor (ps : List Handle) (w : CAutoComPtr) :
    releasedHandles (assignAll w ps).2 ++ releasedHandles (assignAll w ps).1.dtor
      = (w.pointer :: ps).filter (fun h => decide (h ≠ nullptr)) := by
  induction ps generalizing w with
  | nil =>
    simp only [assignAll, releasedHandles, List.nil_append, releasedHandles_dtor]
    by_cases h : w.pointer = nullptr <;> simp [h]
  | cons p ps ih =>
    have step := ih (w.opAssign p).self
    have hp : (w.opAssign p).self.pointer = p := rfl
    rw [hp] at step
    simp only [assignAll, releasedHandles_append, List.append_assoc, step,
      releasedHandles_opAssign]
    by_cases h : w.pointer = nullptr <;> simp [h]

theorem releasedHandles_run (l : Lifetime) :
    releasedHandles l.run = l.handed.filter (fun h => decide (h ≠ nullptr)) := by
  unfold Lifetime.run Lifetime.handed
  simp only [releasedHandles_append, List.append_assoc, releasedHandles_assignAll_dtor]
  cases l.initial with
  | none => simp [construct, CAutoComPtr.ctor, releasedHandles]
  | some p => simp [construct, CAutoComPtr.ctorFrom, releasedHandles]

/-- C2: over a wrapper lifetime (construction, empty or from a raw handle, then any
finite sequence of raw-handle assignments, then destruction), the number of `Release`
calls on each non-null handle equals the number of times that handle was given to the
wrapper by construction or assignment, and `Release` is never called on null. -/
theorem lifetime_releases_each_handed_handle_once (l : Lifetime) (h : Handle)
    (hh : h ≠ nullptr) :
    (releasedHandles l.run).count h = l.handed.count h ∧
    nullptr ∉ releasedHandles l.run := by
  rw [releasedHandles_run]
  constructor
  · rw [List.count_filter]
    simpa using hh
  · simp [List.mem_filter]

/-- C2 at the lifetime `CAutoComPtr w(1); w = 2; w = 1; w = 0; w = 3;` and handle `1`:
given twice, released twice. -/
theorem lifetime_releases_each_handed_handle_once_witness :
    (1 : Handle) ≠ nullptr ∧
    (releasedHandles (Lifetime.run { initial := some 1, assigned := [2, 1, 0, 3] })).count 1 = 2 ∧
    (Lifetime.handed { initial := some 1, assigned := [2, 1, 0, 3] }).count 1 = 2 ∧
    nullptr ∉ releasedHandles (Lifetime.run { initial := some 1, assigned := [2, 1, 0, 3] }) :=
  ⟨by decide,
   by decide,
   by decide,
   (lifetime_releases_each_handed_handle_once
     { initial := some 1, assigned := [2, 1, 0, 3] } 1 (by decide)).2⟩

theorem accessAll_of_empty (ops : List Access) (w : CAutoComPtr)
    (hw : w.pointer = nullptr) :
    (accessAll w ops).1.pointer = nullptr ∧ releasedHandles (accessAll w ops).2 = [] := by
  induction ops generalizing w with
  | nil => exact ⟨hw, rfl⟩
  | cons a ops ih =>
    have next : (Access.apply w a).1.pointer = nullptr := by
      cases a <;> first | exact hw | rfl
    have quiet : releasedHandles (Access.apply w a).2 = [] := by
      cases a <;> rfl
    have rest := ih (Access.apply w a).1 next
    refine ⟨rest.1, ?_⟩
    simp only [accessAll, releasedHandles_append, quiet, rest.2, List.append_nil]

/-- C4: a default-constructed wrapper is empty, stays empty under every sequence of
calls of `operator->`, conversion to `T*`, `operator!=` and `PvReturn`, no call up to
then has called `Release`, and its destructor then performs no event. -/
theorem never_assigned_wrapper_releases_nothing (ops : List Access) :
    CAutoComPtr.ctor.self.pointer = nullptr ∧
    (accessAll CAutoComPtr.ctor.self ops).1.pointer = nullptr ∧
    releasedHandles (CAutoComPtr.ctor.events ++ (accessAll CAutoComPtr.ctor.self ops).2) = [] ∧
    (accessAll CAutoComPtr.ctor.self ops).1.dtor = [] := by
  have h := accessAll_of_empty ops CAutoComPtr.ctor.self rfl
  refine ⟨rfl, h.1, ?_, ?_⟩
  · rw [releasedHandles_append, h.2]; rfl
  · unfold CAutoComPtr.dtor
    simp [h.1]

/-! ## Several wrappers -/


theorem mem_released_opAssign (hist : List Event) (o : CAutoComPtr) (p h : Handle) :
    h ∈ releasedHandles (hist ++ (o.opAssign p).events)
      ↔ h ∈ releasedHandles hist ∨ (o.pointer ≠ nullptr ∧ h = o.pointer) := by
  rw [releasedHandles_append, releasedHandles_opAssign]
  by_cases e : o.pointer = nullptr <;> simp [e]

theorem mem_released_dtor (hist : List Event) (o : CAutoComPtr) (h : Handle) :
    h ∈ releasedHandles (hist ++ o.dtor)
      ↔ h ∈ releasedHandles hist ∨ (o.pointer ≠ nullptr ∧ h = o.pointer) := by
  rw [releasedHandles_append, releasedHandles_dtor]
  by_cases e : o.pointer = nullptr <;> simp [e]

theorem mem_released_PvReturn (hist : List Event) (o : CAutoComPtr) (h : Handle) :
    h ∈ releasedHandles (hist ++ o.PvReturn.events) ↔ h ∈ releasedHandles hist := by
  rw [releasedHandles_append]
  simp [CAutoComPtr.PvReturn, releasedHandles]

theorem not_held_of_owned {w : World} {p : Handle}
    (own : p = nullptr ∨ (¬ w.holds p ∧ ¬ w.released p)) (hp : p ≠ nullptr)
    (j : Nat) (hj : j < w.count) (al : (w.inst j).alive = true) :
    (w.inst j).obj.pointer ≠ p := by
  rcases own with e | ⟨nh, _⟩
  · exact absurd e hp
  · exact fun e => nh ⟨j, hj, al, e⟩

theorem not_released_of_owned {w : World} {p : Handle} (inv : Inv w)
    (own : p = nullptr ∨ (¬ w.holds p ∧ ¬ w.released p))
    (j : Nat) (hj : j < w.count) :
    p ∉ releasedHandles (w.inst j).history := by
  rcases own with e | ⟨_, nr⟩
  · rw [e]; exact inv.nonnull j hj
  · exact fun m => nr ⟨j, hj, m⟩

theorem inv_init : Inv World.init := by
  constructor
  · intro i hi; exact absurd hi (Nat.not_lt_zero i)
  · intro i hi; exact absurd hi (Nat.not_lt_zero i)
  · intro i hi; exact absurd hi (Nat.not_lt_zero i)
  · intro i hi; exact absurd hi (Nat.not_lt_zero i)

theorem inv_assign (w : World) (i : Nat) (p : Handle) (inv : Inv w)
    (wf : (Call.assign i p).wellFormed w) (own : (Call.assign i p).ownsArgument w) :
    Inv (w.step (Call.assign i p)) := by
  obtain ⟨hi, ali⟩ := wf
  have nr := fun j hj => not_released_of_owned inv own j hj
  have nh := fun hp j hj al => not_held_of_owned own hp j hj al
  constructor
  · intro a ha b hb hab ala alb hpa
    simp only [World.step, Function.update_apply] at ha hb ala alb hpa ⊢
    by_cases ea : a = i
    · have eb : ¬ b = i := fun e => hab (ea.trans e.symm)
      simp only [ea, eb, if_true, if_false] at ala alb hpa ⊢
      exact fun e => nh hpa b hb alb e.symm
    · by_cases eb : b = i
      · simp only [ea, eb, if_true, if_false] at ala alb hpa ⊢
        by_cases hp : p = nullptr
        · rw [hp]; exact hpa
        · exact nh hp a ha ala
      · simp only [ea, eb, if_false] at ala alb hpa ⊢
        exact inv.unique a ha b hb hab ala alb hpa
  · intro a ha b hb alb h hm
    simp only [World.step, Function.update_apply] at ha hb alb hm ⊢
    by_cases ea : a = i
    · simp only [ea, if_true, mem_released_opAssign] at hm
      by_cases eb : b = i
      · simp only [eb, if_true]
        show p ≠ h
        rcases hm with m | ⟨n0, e⟩
        · exact fun e => nr i hi (e ▸ m)
        · rw [e]
          by_cases hp : p = nullptr
          · rw [hp]; exact fun e => n0 e.symm
          · exact fun e => nh hp i hi ali e.symm
      · simp only [eb, if_false] at alb ⊢
        rcases hm with m | ⟨n0, e⟩
        · exact inv.gone i hi b hb alb h m
        · rw [e]
          exact fun e => inv.unique i hi b hb (fun e => eb e.symm) ali alb n0 e.symm
    · simp only [ea, if_false] at hm
      by_cases eb : b = i
      · simp only [eb, if_true]
        show p ≠ h
        exact fun e => nr a ha (e ▸ hm)
      · simp only [eb, if_false] at alb ⊢
        exact inv.gone a ha b hb alb h hm
  · intro a ha b hb hab h hm
    simp only [World.step, Function.update_apply] at ha hb hm ⊢
    by_cases ea : a = i
    · have eb : ¬ b = i := fun e => hab (ea.trans e.symm)
      simp only [ea, if_true, mem_released_opAssign] at hm
      simp only [eb, if_false]
      rcases hm with m | ⟨n0, e⟩
      · exact inv.once i hi b hb (fun e => eb e.symm) h m
      · exact fun m => inv.gone b hb i hi ali h m e.symm
    · simp only [ea, if_false] at hm
      by_cases eb : b = i
      · simp only [eb, if_true, mem_released_opAssign]
        rintro (m | ⟨_, e⟩)
        · exact inv.once a ha i hi ea h hm m
        · exact inv.gone a ha i hi ali h hm e.symm
      · simp only [eb, if_false]
        exact inv.once a ha b hb hab h hm
  · intro a ha
    simp only [World.step, Function.update_apply] at ha ⊢
    by_cases ea : a = i
    · simp only [ea, if_true, mem_released_opAssign]
      rintro (m | ⟨n0, e⟩)
      · exact inv.nonnull i hi m
      · exact n0 e.symm
    · simp only [ea, if_false]
      exact inv.nonnull a ha

theorem inv_destroy (w : World) (i : Nat) (inv : Inv w)
    (wf : (Call.destroy i).wellFormed w) :
    Inv (w.step (Call.destroy i)) := by
  obtain ⟨hi, ali⟩ := wf
  constructor
  · intro a ha b hb hab ala alb hpa
    simp only [World.step, Function.update_apply] at ha hb ala alb hpa ⊢
    by_cases ea : a = i
    · simp [ea] at ala
    · by_cases eb : b = i
      · simp [eb] at alb
      · simp only [ea, eb, if_false] at ala alb hpa ⊢
        exact inv.unique a ha b hb hab ala alb hpa
  · intro a ha b hb alb h hm
    simp only [World.step, Function.update_apply] at ha hb alb hm ⊢
    by_cases eb : b = i
    · simp [eb] at alb
    · simp only [eb, if_false] at alb ⊢
      by_cases ea : a = i
      · simp only [ea, if_true, mem_released_dtor] at hm
        rcases hm with m | ⟨n0, e⟩
        · exact inv.gone i hi b hb alb h m
        · rw [e]
          exact fun e => inv.unique i hi b hb (fun e => eb e.symm) ali alb n0 e.symm
      · simp only [ea, if_false] at hm
        exact inv.gone a ha b hb alb h hm
  · intro a ha b hb hab h hm
    simp only [World.step, Function.update_apply] at ha hb hm ⊢
    by_cases ea : a = i
    · have eb : ¬ b = i := fun e => hab (ea.trans e.symm)
      simp only [ea, if_true, mem_released_dtor] at hm
      simp only [eb, if_false]
      rcases hm with m | ⟨_, e⟩
      · exact inv.once i hi b hb (fun e => eb e.symm) h m
      · exact fun m => inv.gone b hb i hi ali h m e.symm
    · simp only [ea, if_false] at hm
      by_cases eb : b = i
      · simp only [eb, if_true, mem_released_dtor]
        rintro (m | ⟨_, e⟩)
        · exact inv.once a ha i hi ea h hm m
        · exact inv.gone a ha i hi ali h hm e.symm
      · simp only [eb, if_false]
        exact inv.once a ha b hb hab h hm
  · intro a ha
    simp only [World.step, Function.update_apply] at ha ⊢
    by_cases ea : a = i
    · simp only [ea, if_true, mem_released_dtor]
      rintro (m | ⟨n0, e⟩)
      · exact inv.nonnull i hi m
      · exact n0 e.symm
    · simp only [ea, if_false]
      exact inv.nonnull a ha

theorem inv_pvReturn (w : World) (i : Nat) (inv : Inv w)
    (wf : (Call.pvReturn i).wellFormed w) :
    Inv (w.step (Call.pvReturn i)) := by
  obtain ⟨hi, _⟩ := wf
  have old : ∀ a, a < w.count → ∀ h,
      h ∈ releasedHandles ((w.step (Call.pvReturn i)).inst a).history →
      h ∈ releasedHandles (w.inst a).history := by
    intro a _ h hm
    simp only [World.step, Function.update_apply] at hm
    by_cases ea : a = i
    · simp only [ea, if_true, mem_released_PvReturn] at hm
      rw [ea]; exact hm
    · simp only [ea, if_false] at hm
      exact hm
  constructor
  · intro a ha b hb hab ala alb hpa
    simp only [World.step, Function.update_apply] at ha hb ala alb hpa ⊢
    by_cases ea : a = i
    · simp only [ea, if_true] at hpa
      exact absurd rfl hpa
    · by_cases eb : b = i
      · simp only [ea, eb, if_true, if_false] at hpa ⊢
        exact hpa
      · simp only [ea, eb, if_false] at ala alb hpa ⊢
        exact inv.unique a ha b hb hab ala alb hpa
  · intro a ha b hb alb h hm
    have hm := old a ha h hm
    simp only [World.step, Function.update_apply] at ha hb alb ⊢
    by_cases eb : b = i
    · simp only [eb, if_true]
      show nullptr ≠ h
      exact fun e => inv.nonnull a ha (e ▸ hm)
    · simp only [eb, if_false] at alb ⊢
      exact inv.gone a ha b hb alb h hm
  · intro a ha b hb hab h hm m
    exact inv.once a ha b hb hab h (old a ha h hm) (old b hb h m)
  · intro a ha m
    exact inv.nonnull a ha (old a ha _ m)

theorem inv_constructFrom (w : World) (p : Handle) (inv : Inv w)
    (own : (Call.constructFrom p).ownsArgument w) :
    Inv (w.step (Call.constructFrom p)) := by
  have nr := fun j hj => not_released_of_owned inv own j hj
  have nh := fun hp j hj al => not_held_of_owned own hp j hj al
  have below : ∀ a, a < w.count + 1 → ¬ a = w.count → a < w.count := by
    intro a ha ea; omega
  constructor
  · intro a ha b hb hab ala alb hpa
    simp only [World.step, Function.update_apply] at ha hb ala alb hpa ⊢
    by_cases ea : a = w.count
    · have eb : ¬ b = w.count := fun e => hab (ea.trans e.symm)
      simp only [ea, eb, if_true, if_false] at alb hpa ⊢
      exact fun e => nh hpa b (below b hb eb) alb e.symm
    · by_cases eb : b = w.count
      · simp only [ea, eb, if_true, if_false] at ala hpa ⊢
        by_cases hp : p = nullptr
        · show (w.inst a).obj.pointer ≠ p
          rw [hp]; exact hpa
        · exact nh hp a (below a ha ea) ala
      · simp only [ea, eb, if_false] at ala alb hpa ⊢
        exact inv.unique a (below a ha ea) b (below b hb eb) hab ala alb hpa
  · intro a ha b hb alb h hm
    simp only [World.step, Function.update_apply] at ha hb alb hm ⊢
    by_cases ea : a = w.count
    · simp [ea, CAutoComPtr.ctorFrom, releasedHandles] at hm
    · simp only [ea, if_false] at hm
      by_cases eb : b = w.count
      · simp only [eb, if_true]
        show p ≠ h
        exact fun e => nr a (below a ha ea) (e ▸ hm)
      · simp only [eb, if_false] at alb ⊢
        exact inv.gone a (below a ha ea) b (below b hb eb) alb h hm
  · intro a ha b hb hab h hm
    simp only [World.step, Function.update_apply] at ha hb hm ⊢
    by_cases ea : a = w.count
    · simp [ea, CAutoComPtr.ctorFrom, releasedHandles] at hm
    · simp only [ea, if_false] at hm
      by_cases eb : b = w.count
      · simp [eb, CAutoComPtr.ctorFrom, releasedHandles]
      · simp only [eb, if_false]
        exact inv.once a (below a ha ea) b (below b hb eb) hab h hm
  · intro a ha
    simp only [World.step, Function.update_apply] at ha ⊢
    by_cases ea : a = w.count
    · simp [ea, CAutoComPtr.ctorFrom, releasedHandles]
    · simp only [ea, if_false]
      exact inv.nonnull a (below a ha ea)

theorem inv_step (w : World) (c : Call) (inv : Inv w)
    (wf : c.wellFormed w) (own : c.ownsArgument w) : Inv (w.step c) := by
  cases c with
  | construct => exact inv_constructFrom w nullptr inv (Or.inl rfl)
  | constructFrom p => exact inv_constructFrom w p inv own
  | assign i p => exact inv_assign w i p inv wf own
  | pvReturn i => exact inv_pvReturn w i inv wf
  | destroy i => exact inv_destroy w i inv wf

theorem inv_run (cs : List Call) (w : World) (inv : Inv w) (d : Disciplined w cs) :
    Inv (w.run cs) := by
  induction cs generalizing w with
  | nil => exact inv
  | cons c cs ih => exact ih (w.step c) (inv_step w c inv d.1 d.2.1) d.2.2

/-- C5, the claim at a concrete input: the well-formed client code
`CAutoComPtr<T> a(h); CAutoComPtr<T> b(h);` with `h = 1` uses construction only, and
afterwards the live wrappers 0 and 1 both hold the non-null handle `1`; when both are
destroyed, each of the two calls `Release` on `1`. -/
theorem two_wrappers_constructed_from_one_handle :
    WellFormed World.init twoFromOneDestroyed ∧
    ¬ NoSharedHandle (World.init.run twoFromOne) ∧
    ¬ NoDualRelease (World.init.run twoFromOneDestroyed) := by
  refine ⟨by decide, ?_, ?_⟩
  · intro h
    exact h 0 (by decide) 1 (by decide) (by decide) rfl rfl (by decide) rfl
  · intro h
    exact h 0 (by decide) 1 (by decide) (by decide) 1 (by decide) (by decide)

/-- C5 (amended): in every state reached from the program start through
construction, raw-handle assignment, `PvReturn` and destruction, provided every
non-null handle given to a constructor or to `operator=` is at that moment neither
held by a live wrapper nor already released by a wrapper, no non-null handle is held
by two live wrappers at once and no handle is released by two different wrappers. -/
theorem owned_handles_are_never_shared (cs : List Call)
    (d : Disciplined World.init cs) :
    NoSharedHandle (World.init.run cs) ∧ NoDualRelease (World.init.run cs) :=
  ⟨(inv_run cs World.init inv_init d).unique, (inv_run cs World.init inv_init d).once⟩

/-- C5 (amended) at the program `transferProgram`, which is disciplined. -/
theorem owned_handles_are_never_shared_witness :
    Disciplined World.init transferProgram ∧
    NoSharedHandle (World.init.run transferProgram) ∧
    NoDualRelease (World.init.run transferProgram) :=
  ⟨by decide, owned_handles_are_never_shared transferProgram (by decide)⟩

end CsDebugScript

namespace NativeDumpTest

theorem foldl_update_range (v : Int) (n : Nat) (a : Nat → Int) (i : Nat) (hi : i < n) :
    (List.range n).foldl (fun a i => Function.update a i v) a i = v := by
  induction n with
  | zero => exact absurd hi (Nat.not_lt_zero i)
  | succ n ih =>
    rw [List.range_succ, List.foldl_append]
    simp only [List.foldl_cons, List.foldl_nil, Function.update_apply]
    by_cases e : i = n
    · simp [e]
    · simp only [e, if_false]
      exact ih (by omega)

/-- C8: for every command line, `main` calls `InfiniteRecursionTestCase(0)` if and
only if `argc == 2` and `atoi(argv[1]) == 1`, and calls `DefaultTestCase` in every
other case (no argument, several arguments, an argument parsed to 0 or to any other
integer); it always calls one of the two. -/
theorem main_selects_fixture (atoi : String → Int) (argc : Int) (argv : Nat → String) :
    (main atoi argc argv = Fixture.InfiniteRecursionTestCase 0
      ↔ (argc = 2 ∧ atoi (argv 1) = 1)) ∧
    (main atoi argc argv = Fixture.DefaultTestCase
      ↔ ¬ (argc = 2 ∧ atoi (argv 1) = 1)) ∧
    (main atoi argc argv = Fixture.InfiniteRecursionTestCase 0 ∨
      main atoi argc argv = Fixture.DefaultTestCase) := by
  unfold main
  by_cases h2 : argc = 2
  · by_cases h0 : atoi (argv 1) = 0
    · simp [h2, h0]
    · by_cases h1 : atoi (argv 1) = 1
      · simp [h2, h1]
      · simp [h2, h0, h1]
  · simp [h2]

/-- C9: when `DefaultTestCase`, run on the freshly initialised `globalVariable`,
reaches the null-pointer write, `string1` is "qwerty", `strings` is "Foo", "Bar" in
that order, `ansiStrings` is "AnsiFoo", "AnsiBar" in that order, `stringMap` and
`stringUMap` each hold exactly the two entries foo -> ansiFoo and bar -> ansiBar, and
each of the 10000 elements of `testArray` is `0x12121212`, whatever the stack held
before. -/
theorem DefaultTestCase_object_graph_at_fault (stack : Nat → Int) (hp : Heap) (fresh : Int) :
    (DefaultTestCase globalVariable stack hp fresh).globalVariable.string1 = "qwerty" ∧
    (DefaultTestCase globalVariable stack hp fresh).globalVariable.strings = ["Foo", "Bar"] ∧
    (DefaultTestCase globalVariable stack hp fresh).globalVariable.ansiStrings
      = ["AnsiFoo", "AnsiBar"] ∧
    ((DefaultTestCase globalVariable stack hp fresh).globalVariable.stringMap.length = 2 ∧
      ∀ kv, kv ∈ (DefaultTestCase globalVariable stack hp fresh).globalVariable.stringMap
        ↔ (kv = ("foo", "ansiFoo") ∨ kv = ("bar", "ansiBar"))) ∧
    ((DefaultTestCase globalVariable stack hp fresh).globalVariable.stringUMap.length = 2 ∧
      ∀ kv, kv ∈ (DefaultTestCase globalVariable stack hp fresh).globalVariable.stringUMap
        ↔ (kv = ("foo", "ansiFoo") ∨ kv = ("bar", "ansiBar"))) ∧
    (∀ i, i < 10000 →
      (DefaultTestCase globalVariable stack hp fresh).testArray i = 0x12121212) := by
  have hmap : (DefaultTestCase globalVariable stack hp fresh).globalVariable.stringMap
      = [("bar", "ansiBar"), ("foo", "ansiFoo")] := by
    simp [DefaultTestCase, globalVariable, mapInsert]
    decide
  have humap : (DefaultTestCase globalVariable stack hp fresh).globalVariable.stringUMap
      = [("foo", "ansiFoo"), ("bar", "ansiBar")] := by
    simp [DefaultTestCase, globalVariable, umapInsert]
  refine ⟨rfl, rfl, rfl, ⟨?_, ?_⟩, ⟨?_, ?_⟩, ?_⟩
  · rw [hmap]; rfl
  · intro kv; rw [hmap]; simp; tauto
  · rw [humap]; rfl
  · intro kv; rw [humap]; simp
  · intro i hi
    have bound : (10000 * sizeofInt) / sizeofInt = 10000 := by
      simp [sizeofInt]
    simp only [DefaultTestCase, fillTestArray, bound]
    exact foldl_update_range 0x12121212 10000 stack i hi

/-- C10: when `DefaultTestCase` reaches the null-pointer write, `sptr1` owns an
`int` of value 5 with use count 1 and `wptr1` is not expired, `esptr1` and `esptr2`
are empty, and `ewptr1` and `ewptr2` are expired with use count 0. -/
theorem DefaultTestCase_smart_pointers_at_fault
    (g : MyTestClass) (stack : Nat → Int) (hp : Heap) (fresh : Int) :
    ((DefaultTestCase g stack hp fresh).sptr1.get (DefaultTestCase g stack hp fresh).heap = some 5 ∧
      (DefaultTestCase g stack hp fresh).sptr1.use_count (DefaultTestCase g stack hp fresh).heap = 1 ∧
      (DefaultTestCase g stack hp fresh).wptr1.expired (DefaultTestCase g stack hp fresh).heap = false) ∧
    ((DefaultTestCase g stack hp fresh).esptr1.block = none ∧
      (DefaultTestCase g stack hp fresh).esptr2.block = none) ∧
    ((DefaultTestCase g stack hp fresh).ewptr1.expired (DefaultTestCase g stack hp fresh).heap = true ∧
      (DefaultTestCase g stack hp fresh).ewptr1.use_count (DefaultTestCase g stack hp fresh).heap = 0 ∧
      (DefaultTestCase g stack hp fresh).ewptr2.expired (DefaultTestCase g stack hp fresh).heap = true ∧
      (DefaultTestCase g stack hp fresh).ewptr2.use_count (DefaultTestCase g stack hp fresh).heap = 0) := by
  have far : ¬ hp.next = hp.next + 1 + 1 := by omega
  simp [DefaultTestCase, make_shared, weak_ptr.ofShared, shared_ptr.assignNull,
    shared_ptr.get, shared_ptr.use_count, weak_ptr.expired, weak_ptr.use_count,
    Function.update_apply, far]

/-- C9 at a stack of zeros and no earlier control block: the last element of
`testArray`. -/
theorem DefaultTestCase_object_graph_at_fault_witness :
    (9999 : Nat) < 10000 ∧
    (DefaultTestCase globalVariable (fun _ => 0)
        { next := 0, block := fun _ => { object := none, strong := 0, weak := 0 } } 0).testArray
      9999 = 0x12121212 :=
  ⟨by decide,
   (DefaultTestCase_object_graph_at_fault (fun _ => 0)
      { next := 0, block := fun _ => { object := none, strong := 0, weak := 0 } } 0).2.2.2.2.2
      9999 (by decide)⟩

end NativeDumpTest
